import Mathlib

/-!
Shallow embedding of `lapce-ui/src/settings.rs` (the Lapce settings panel):
the settings-item keypress state machine, the debounced commit pipeline of
`LapceSettingsItem`, the panel switcher, the lazy child construction of
`LapceSettings`, and the theme-settings change tracking and reset handling.

Conventions used throughout:
* Rust `String` buffers indexed by byte offsets are modelled as `List Char`
  with one element per byte (the claims are about byte arithmetic).
* `f64` geometry is modelled over `ℚ`; `.floor() as usize` is the saturating
  cast of the floor.
* `HashMap` values are association lists with `List.lookup`; a Rust
  `.unwrap()` that can panic is modelled by returning `Option` (`none` is the
  panic).
* druid timer tokens are `Nat`; `TimerToken::INVALID` is `0` and
  `ctx.request_timer` hands out fresh nonzero tokens.
-/

/-- Model of `serde_json::Value` as used by the settings widgets: numbers,
strings and booleans are carried; arrays, objects and null are display-only. -/
inductive JValue where
  | bool (b : Bool)
  | num (n : ℚ)
  | str (s : String)
  | null
  | arr
  | obj
deriving DecidableEq

/-- Outbound `LapceUICommand`s the settings widgets submit. -/
inductive UICmd where
  | updateSettingsFile (kind : String) (name : String) (value : JValue)
  | resetSettingsFile (kind : String) (key : String)
deriving DecidableEq

/-- Model of `druid::Point` over `ℚ`. -/
structure PointQ where
  x : ℚ
  y : ℚ
deriving DecidableEq

/-- Model of `druid::Rect` over `ℚ`. -/
structure RectQ where
  x0 : ℚ
  y0 : ℚ
  x1 : ℚ
  y1 : ℚ
deriving DecidableEq

/-- kurbo `Rect::contains`: half-open on the right and bottom. -/
def RectQ.containsPt (r : RectQ) (p : PointQ) : Bool :=
  decide (r.x0 ≤ p.x) && decide (p.x < r.x1) &&
    decide (r.y0 ≤ p.y) && decide (p.y < r.y1)

/-- Rust `f.floor() as usize`: the saturating cast of the floor.  For
`q ≥ 0` this is `⌊q⌋` (the numerator is nonnegative, so truncating division
of numerator by denominator is the floor); for `q < 0` both the Rust cast and
this definition give 0. -/
def f64FloorAsUsize (q : ℚ) : Nat :=
  q.num.toNat / q.den

/-- Model of `lapce_core::command::MoveCommand` restricted to what the
settings keypress handler distinguishes: `Right`, `Left`, and anything else. -/
inductive MoveCommand where
  | Right
  | Left
  | otherMove
deriving DecidableEq

/-- Model of `lapce_core::command::EditCommand` restricted to what the
settings keypress handler distinguishes. -/
inductive EditCommand where
  | DeleteForward
  | otherEdit
deriving DecidableEq

/-- Model of `lapce_data::command::CommandKind`. -/
inductive CommandKind where
  | Move (cmd : MoveCommand)
  | Edit (cmd : EditCommand)
  | otherKind
deriving DecidableEq

/-- Model of `lapce_data::command::CommandExecuted`. -/
inductive CommandExecuted where
  | Yes
  | No
deriving DecidableEq

/-- State of `LapceSettingsItemKeypress`: the string buffer (one `Char` per
byte) and the byte cursor. -/
structure LapceSettingsItemKeypress where
  input : List Char
  cursor : Nat
deriving DecidableEq

/-- `KeyPressFocus::receive_char` for `LapceSettingsItemKeypress`:
`self.input.insert_str(self.cursor, c); self.cursor += c.len();`. -/
def LapceSettingsItemKeypress.receive_char (s : LapceSettingsItemKeypress)
    (c : List Char) : LapceSettingsItemKeypress :=
  { input := s.input.take s.cursor ++ c ++ s.input.drop s.cursor
    cursor := s.cursor + c.length }

/-- `KeyPressFocus::run_command` for `LapceSettingsItemKeypress`: move right
(incremented then clamped to the buffer length), move left (no-op at 0),
`DeleteForward` (backspace semantics: no-op at 0, else remove the byte before
the cursor), everything else returns `CommandExecuted::No` untouched. -/
def LapceSettingsItemKeypress.run_command (s : LapceSettingsItemKeypress)
    (command : CommandKind) : LapceSettingsItemKeypress × CommandExecuted :=
  match command with
  | CommandKind.Move MoveCommand.Right =>
    let cursor := s.cursor + 1
    let cursor := if s.input.length < cursor then s.input.length else cursor
    ({ s with cursor := cursor }, CommandExecuted.Yes)
  | CommandKind.Move MoveCommand.Left =>
    if s.cursor = 0 then
      (s, CommandExecuted.Yes)
    else
      ({ s with cursor := s.cursor - 1 }, CommandExecuted.Yes)
  | CommandKind.Move MoveCommand.otherMove => (s, CommandExecuted.No)
  | CommandKind.Edit EditCommand.DeleteForward =>
    if s.cursor = 0 then
      (s, CommandExecuted.Yes)
    else
      ({ input := s.input.take (s.cursor - 1) ++ s.input.drop s.cursor
         cursor := s.cursor - 1 }, CommandExecuted.Yes)
  | CommandKind.Edit EditCommand.otherEdit => (s, CommandExecuted.No)
  | CommandKind.otherKind => (s, CommandExecuted.No)

/-- State of `LapceSettingsItem` relevant to the debounced commit pipeline:
the row's category (`kind`), field name (`name`), current value, the dirty
flag `value_changed`, and the token of the last armed idle timer. -/
structure ItemState where
  kind : String
  name : String
  value : JValue
  value_changed : Bool
  last_idle_timer : Nat
deriving DecidableEq

/-- Events delivered to `LapceSettingsItem::event` that touch the commit
pipeline: a mouse-down on a boolean row (`hit` is whether the press falls in
the checkbox rectangle; `tok` is the fresh token `ctx.request_timer` returns),
a timer firing with its token, and anything else. -/
inductive ItemEvent where
  | mouseDownCheckbox (hit : Bool) (tok : Nat)
  | timer (tok : Nat)
  | otherEvent

/-- One step of `LapceSettingsItem::event`, returning the new state and the
submitted commands.  A checkbox hit toggles the stored boolean, sets
`value_changed` and re-arms the timer with the fresh token; a timer event
fires only when the dirty flag is set and the token equals the armed one, in
which case it clears the flag and submits one `UpdateSettingsFile` command
with the current value. -/
def ItemState.step (s : ItemState) (e : ItemEvent) : ItemState × List UICmd :=
  match e with
  | ItemEvent.mouseDownCheckbox hit tok =>
    match s.value with
    | JValue.bool checked =>
      if hit then
        ({ s with
            value := JValue.bool (!checked)
            value_changed := true
            last_idle_timer := tok }, [])
      else
        (s, [])
    | _ => (s, [])
  | ItemEvent.timer tok =>
    if s.value_changed = true ∧ tok = s.last_idle_timer then
      ({ s with value_changed := false },
        [UICmd.updateSettingsFile s.kind s.name s.value])
    else
      (s, [])
  | ItemEvent.otherEvent => (s, [])

/-- Runs a sequence of events through `ItemState.step`, concatenating the
emitted commands. -/
def ItemState.run : ItemState → List ItemEvent → ItemState × List UICmd
  | s, [] => (s, [])
  | s, e :: es =>
    let first := s.step e
    let rest := first.1.run es
    (rest.1, first.2 ++ rest.2)

/-- The `n` checkbox edits of one debounce window: edit `i` is armed with the
fresh token `base + 1 + i` (druid timer tokens are handed out from a
monotonically increasing counter). -/
def editEvents (base : Nat) : Nat → List ItemEvent
  | 0 => []
  | n + 1 => ItemEvent.mouseDownCheckbox true (base + 1) :: editEvents (base + 1) n

/-- The firings of all `n` timers armed during the window, in arming order:
token `base + 1` up to `base + n`. -/
def fireEvents (base : Nat) : Nat → List ItemEvent
  | 0 => []
  | n + 1 => ItemEvent.timer (base + 1) :: fireEvents (base + 1) n

/-- The boolean value after `n` checkbox toggles. -/
def flipN (b : Bool) : Nat → Bool
  | 0 => b
  | n + 1 => flipN (!b) n

/-- State of `LapceSettingsPanel` relevant to switching: the active page
index, the switcher rectangle and line height, and the number of child pages
(`children.len()`, which is 6 by construction and never modified). -/
structure PanelState where
  active : Nat
  switcher_rect : RectQ
  switcher_line_height : ℚ
  children : Nat
deriving DecidableEq

/-- Side effects of `LapceSettingsPanel::mouse_down` on the event context and
tab data: `ctx.set_handled`, `ctx.request_layout`, and the
`request_focus` call (which rewires the owning editor tab's active-child
bookkeeping and `ctx.request_focus`). -/
structure MouseDownEffects where
  handled : Bool
  layoutRequested : Bool
  focusRequested : Bool
deriving DecidableEq

/-- The panel state built by `LapceSettingsPanel::new`: six children, active
index 0, zero rectangles, switcher line height 40. -/
def panelNew : PanelState :=
  { active := 0
    switcher_rect := ⟨0, 0, 0, 0⟩
    switcher_line_height := 40
    children := 6 }

/-- `LapceSettingsPanel::mouse_down`: inside the switcher rectangle the
clicked index is `floor((y - switcher_rect.y0) / switcher_line_height) as
usize`; only when that index is below `children.len()` is the active page
switched (and a re-layout requested); the event is always consumed and focus
requested when the press is inside the switcher. -/
def PanelState.mouse_down (s : PanelState) (pos : PointQ) :
    PanelState × MouseDownEffects :=
  if s.switcher_rect.containsPt pos then
    let index :=
      f64FloorAsUsize ((pos.y - s.switcher_rect.y0) / s.switcher_line_height)
    if index < s.children then
      ({ s with active := index },
        { handled := true, layoutRequested := true, focusRequested := true })
    else
      (s, { handled := true, layoutRequested := false, focusRequested := true })
  else
    (s, { handled := false, layoutRequested := false, focusRequested := false })

/-- Events reaching `LapceSettingsPanel::event` that can touch `active`:
mouse-down, the `Focus`, `ShowSettings`, `ShowKeybindings` and `Hide` UI
commands, and everything else. -/
inductive PanelEvent where
  | mouseDown (pos : PointQ)
  | uiFocus
  | uiShowSettings
  | uiShowKeybindings
  | uiHide
  | otherEvent

/-- The state transformation of `LapceSettingsPanel::event` on `active`:
`ShowSettings` sets index 0, `ShowKeybindings` sets index 5, mouse-down goes
through `mouse_down`, and no other event writes `active`. -/
def PanelState.event (s : PanelState) (e : PanelEvent) : PanelState :=
  match e with
  | PanelEvent.mouseDown pos => (s.mouse_down pos).1
  | PanelEvent.uiShowSettings => { s with active := 0 }
  | PanelEvent.uiShowKeybindings => { s with active := 5 }
  | _ => s

/-- Concrete panel state used to refute the clamping reading of the switcher
click: a 150×400 switcher rectangle with the default 40px line height. -/
def panelCx : PanelState :=
  { active := 0
    switcher_rect := ⟨0, 0, 150, 400⟩
    switcher_line_height := 40
    children := 6 }

/-- Rust `field.replace('_', "-")`: every underscore byte becomes a
hyphen (the pattern is a single char, so `replace` is a per-char map). -/
def normalizeField (f : String) : String :=
  String.mk (f.data.map (fun c => if c = '_' then '-' else c))

/-- One child row built by `LapceSettings::update_children`: the arguments
`LapceSettingsItem::new` is called with (minus the external event sink). -/
structure SettingsRow where
  kind : String
  field : String
  desc : String
  value : JValue
deriving DecidableEq

/-- `HashMap::remove`'s effect on the map, on the association-list model:
drops the entry for the key. -/
def removeKey (k : String) : List (String × JValue) → List (String × JValue)
  | [] => []
  | p :: rest => if p.1 = k then rest else p :: removeKey k rest

/-- The loop body of `LapceSettings::update_children`: for each reflected
`(field, desc)` pair in order, normalize the field name, take the value out
of the settings map (`settings.remove(&field).unwrap()`; `none` models the
panic on a missing field), and emit one row. -/
def buildRows (kind : String) :
    List (String × String) → List (String × JValue) → Option (List SettingsRow)
  | [], _ => some []
  | fd :: rest, settings =>
    let field := normalizeField fd.1
    match List.lookup field settings with
    | none => none
    | some value =>
      match buildRows kind rest (removeKey field settings) with
      | none => none
      | some rows => some (SettingsRow.mk kind field fd.2 value :: rows)

/-- `LapceSettings::update_children`: `self.children.clear()` discards the
previous children wholesale (so `old` is unused), then the loop over
`fields.iter().zip(descs.iter())` rebuilds them. -/
def LapceSettings.update_children (old : List SettingsRow) (kind : String)
    (fields descs : List String) (settings : List (String × JValue)) :
    Option (List SettingsRow) :=
  buildRows kind (fields.zip descs) settings

/-- The children-handling tail of `LapceSettings::event`: when the children
list is empty it rebuilds via `update_children` and raises
`ctx.children_changed()` (the boolean); otherwise the list is untouched. -/
def settingsEventChildren (children : List SettingsRow) (kind : String)
    (fields descs : List String) (settings : List (String × JValue)) :
    Option (List SettingsRow × Bool) :=
  if children.isEmpty then
    match LapceSettings.update_children children kind fields descs settings with
    | none => none
    | some rows => some (rows, true)
  else
    some (children, false)

/-- Spec-side characterization of the rebuilt children (named after the
spec's wording, to be compared with `LapceSettings.update_children`): one row
per reflected `(field, description)` pair in reflected order, the field name
normalized, the value looked up in the unmodified snapshot map. -/
def specRows (kind : String) (fields descs : List String)
    (settings : List (String × JValue)) : List SettingsRow :=
  (fields.zip descs).map (fun fd =>
    SettingsRow.mk kind (normalizeField fd.1) fd.2
      ((List.lookup (normalizeField fd.1) settings).getD JValue.null))

/-- Model of `ThemeKind`. -/
inductive ThemeKind where
  | Base
  | UI
  | Syntax
deriving DecidableEq

/-- The `Display` impl of `ThemeKind`. -/
def ThemeKind.toStr : ThemeKind → String
  | ThemeKind.Base => "theme.base"
  | ThemeKind.UI => "theme.ui"
  | ThemeKind.Syntax => "theme.syntax"

/-- The default string `ThemeSettings::layout` uses for a key: the `Base` and
`UI` arms `.unwrap()` the default-theme lookup (a missing key panics, hence
`Option`), while the `Syntax` arm falls back to the empty string via
`.cloned().unwrap_or_else(|| "".to_string())`. -/
def themeDefault (kind : ThemeKind) (defaultTheme : List (String × String))
    (key : String) : Option String :=
  match kind with
  | ThemeKind.Base => List.lookup key defaultTheme
  | ThemeKind.UI => List.lookup key defaultTheme
  | ThemeKind.Syntax => some ((List.lookup key defaultTheme).getD "")

/-- The per-row loop of `ThemeSettings::layout` that rebuilds
`changed_rects`: for row `i` with key `keys[i]`, compute the default and
whether the live theme value differs from it; if it differs push
`(key, default, rect)`, where the rectangle placed right of the row's editor
is abstracted as `rects i` (druid's text measurement and widget geometry are
external).  `none` models the `.unwrap()` panics on keys missing from the
theme maps. -/
def changedRectsGo (kind : ThemeKind)
    (theme defaultTheme : List (String × String)) (rects : Nat → RectQ) :
    Nat → List String → Option (List (String × String × RectQ))
  | _, [] => some []
  | i, key :: rest =>
    match themeDefault kind defaultTheme key, List.lookup key theme with
    | some dflt, some live =>
      match changedRectsGo kind theme defaultTheme rects (i + 1) rest with
      | none => none
      | some l => some (if ¬ live = dflt then (key, dflt, rects i) :: l else l)
    | _, _ => none

/-- The effect of one `ThemeSettings::layout` pass on `changed_rects`:
`self.changed_rects.clear()` discards the previous list wholesale (so `old`
is unused), then the loop over the inputs rebuilds it from row 0. -/
def ThemeSettings.layoutChangedRects (old : List (String × String × RectQ))
    (kind : ThemeKind) (theme defaultTheme : List (String × String))
    (rects : Nat → RectQ) (keys : List String) :
    Option (List (String × String × RectQ)) :=
  changedRectsGo kind theme defaultTheme rects 0 keys

/-- State of `ThemeSettings` relevant to the reset-click protocol, together
with the `value_docs` map of the owning tab (document name → current content;
`Document::reload` replaces the content). -/
structure ThemeEventState where
  kind : ThemeKind
  changed_rects : List (String × String × RectQ)
  mouse_down_rect : Option (String × String × RectQ)
  value_docs : List (String × String)
deriving DecidableEq

/-- The mouse events `ThemeSettings::event` distinguishes. -/
inductive ThemeEvent where
  | mouseDown (pos : PointQ)
  | mouseUp (pos : PointQ)
  | otherEvent

/-- `Arc::make_mut(doc).reload(Rope::from(default), true)` on the value-docs
map: replaces the content stored under `name`; `none` models the
`.unwrap()` panic of `value_docs.get_mut(&name)` when the doc is absent. -/
def reloadDoc (name content : String) :
    List (String × String) → Option (List (String × String))
  | [] => none
  | p :: rest =>
    if p.1 = name then
      some ((name, content) :: rest)
    else
      match reloadDoc name content rest with
      | none => none
      | some r => some (p :: r)

/-- The mouse handling of `ThemeSettings::event`: a mouse-down clears
`mouse_down_rect` and scans `changed_rects` in order, remembering the last
rectangle containing the press (the loop has no break); a mouse-up inside the
remembered rectangle reloads that key's value document with the recorded
default string and submits one `ResetSettingsFile` command; every mouse-up
clears the remembered hit. -/
def ThemeEventState.event (s : ThemeEventState) (e : ThemeEvent) :
    Option (ThemeEventState × List UICmd) :=
  match e with
  | ThemeEvent.mouseDown pos =>
    let hit := s.changed_rects.foldl
      (fun acc entry =>
        if entry.2.2.containsPt pos then some entry else acc) none
    some ({ s with mouse_down_rect := hit }, [])
  | ThemeEvent.mouseUp pos =>
    match s.mouse_down_rect with
    | some kdr =>
      if kdr.2.2.containsPt pos then
        match reloadDoc (s.kind.toStr ++ "." ++ kdr.1) kdr.2.1 s.value_docs with
        | none => none
        | some docs =>
          some ({ s with value_docs := docs, mouse_down_rect := none },
            [UICmd.resetSettingsFile s.kind.toStr kdr.1])
      else
        some ({ s with mouse_down_rect := none }, [])
    | none => some ({ s with mouse_down_rect := none }, [])
  | ThemeEvent.otherEvent => some (s, [])

/-- The sub-state of `ThemeSettings` rebuilt by `update_inputs`: the key
list, the input-editor widgets (abstracted to a length-preserving list), and
the cached text layouts (the rendered key name per row). -/
structure ThemeInputsState where
  keys : List String
  inputs : List Unit
  text_layouts : Option (List String)
deriving DecidableEq

/-- `ThemeSettings::update_inputs`: clears `keys`, `inputs` and the layout
cache, sorts the subsection's color keys, and pushes one key and one input
editor per color, in sorted order. -/
def ThemeSettings.update_inputs (colors : List String) : ThemeInputsState :=
  let sortedColors := List.insertionSort (· ≤ ·) colors
  { keys := sortedColors
    inputs := sortedColors.map (fun _ => ())
    text_layouts := none }

/-- The text-layout-cache rebuild at the top of `ThemeSettings::layout`: when
the cache is `None`, it is rebuilt with exactly one text layout per key. -/
def ThemeSettings.layoutTexts (s : ThemeInputsState) : ThemeInputsState :=
  match s.text_layouts with
  | none => { s with text_layouts := some (s.keys.map (fun key => key)) }
  | some _ => s

/-- C2: for every keypress-handler state with `cursor ≤ input.length`,
insertion splices at the cursor and advances it by the inserted byte length;
backward delete (`DeleteForward`) is a no-op at 0 and otherwise removes the
byte before the cursor; move-right clamps at the end; move-left is a no-op at
0 and otherwise decrements; every unrecognized command is declined without
modifying the state. -/
theorem settings_item_keypress_ops (s : LapceSettingsItemKeypress)
    (c : List Char) (h : s.cursor ≤ s.input.length) :
    ((s.receive_char c).input.length = s.input.length + c.length ∧
      (s.receive_char c).cursor = s.cursor + c.length) ∧
    (s.cursor = 0 →
      s.run_command (CommandKind.Edit EditCommand.DeleteForward) =
        (s, CommandExecuted.Yes)) ∧
    (0 < s.cursor →
      ((s.run_command (CommandKind.Edit EditCommand.DeleteForward)).1.input.length
          = s.input.length - 1 ∧
        (s.run_command (CommandKind.Edit EditCommand.DeleteForward)).1.cursor
          = s.cursor - 1 ∧
        (s.run_command (CommandKind.Edit EditCommand.DeleteForward)).2
          = CommandExecuted.Yes)) ∧
    ((s.run_command (CommandKind.Move MoveCommand.Right)).1.cursor
        = min (s.cursor + 1) s.input.length ∧
      (s.run_command (CommandKind.Move MoveCommand.Right)).1.input = s.input) ∧
    (s.cursor = 0 →
      s.run_command (CommandKind.Move MoveCommand.Left) =
        (s, CommandExecuted.Yes)) ∧
    (0 < s.cursor →
      s.run_command (CommandKind.Move MoveCommand.Left) =
        ({ s with cursor := s.cursor - 1 }, CommandExecuted.Yes)) ∧
    (s.run_command (CommandKind.Move MoveCommand.otherMove)
        = (s, CommandExecuted.No) ∧
      s.run_command (CommandKind.Edit EditCommand.otherEdit)
        = (s, CommandExecuted.No) ∧
      s.run_command CommandKind.otherKind = (s, CommandExecuted.No)) := by
  refine ⟨⟨?_, rfl⟩, ?_, ?_, ⟨?_, ?_⟩, ?_, ?_, rfl, rfl, rfl⟩
  · simp [LapceSettingsItemKeypress.receive_char]
    omega
  · intro h0
    simp [LapceSettingsItemKeypress.run_command, h0]
  · intro h0
    have hne : ¬ s.cursor = 0 := by omega
    refine ⟨?_, ?_, ?_⟩ <;>
      simp [LapceSettingsItemKeypress.run_command, hne]
    omega
  · simp only [LapceSettingsItemKeypress.run_command]
    split <;> omega
  · simp [LapceSettingsItemKeypress.run_command]
  · intro h0
    simp [LapceSettingsItemKeypress.run_command, h0]
  · intro h0
    have hne : ¬ s.cursor = 0 := by omega
    simp [LapceSettingsItemKeypress.run_command, hne]

/-- Witness for `settings_item_keypress_ops` at the concrete state
`⟨['a','b'], 1⟩` with insertion of the two-byte string "xy". -/
theorem settings_item_keypress_ops_witness :
    ((LapceSettingsItemKeypress.mk ['a', 'b'] 1).receive_char
        ['x', 'y']).input.length = 4 ∧
    ((LapceSettingsItemKeypress.mk ['a', 'b'] 1).receive_char
        ['x', 'y']).cursor = 3 ∧
    ((LapceSettingsItemKeypress.mk ['a', 'b'] 1).run_command
        (CommandKind.Edit EditCommand.DeleteForward)).1.input.length = 1 := by
  have h := settings_item_keypress_ops (LapceSettingsItemKeypress.mk ['a', 'b'] 1)
    ['x', 'y'] (by decide)
  exact ⟨h.1.1, h.1.2, (h.2.2.1 (by decide)).1⟩

theorem ItemState.run_nil (s : ItemState) : s.run [] = (s, []) := rfl

theorem ItemState.run_cons (s : ItemState) (e : ItemEvent)
    (es : List ItemEvent) :
    s.run (e :: es) =
      (((s.step e).1.run es).1, (s.step e).2 ++ ((s.step e).1.run es).2) := rfl

theorem ItemState.run_append (s : ItemState) (l1 l2 : List ItemEvent) :
    s.run (l1 ++ l2) =
      (((s.run l1).1.run l2).1, (s.run l1).2 ++ ((s.run l1).1.run l2).2) := by
  induction l1 generalizing s with
  | nil => simp [ItemState.run_nil]
  | cons e es ih =>
    rw [List.cons_append, ItemState.run_cons, ih ((s.step e).1),
      ItemState.run_cons]
    simp [List.append_assoc]

theorem ItemState.run_editEvents (m : Nat) :
    ∀ (base : Nat) (s : ItemState) (b : Bool), s.value = JValue.bool b →
      s.run (editEvents base (m + 1)) =
        ({ s with
            value := JValue.bool (flipN b (m + 1))
            value_changed := true
            last_idle_timer := base + (m + 1) }, []) := by
  induction m with
  | zero =>
    intro base s b hv
    have hstep : s.step (ItemEvent.mouseDownCheckbox true (base + 1)) =
        ({ s with
            value := JValue.bool (!b)
            value_changed := true
            last_idle_timer := base + 1 }, []) := by
      simp [ItemState.step, hv]
    rw [show editEvents base 1 =
        [ItemEvent.mouseDownCheckbox true (base + 1)] from rfl,
      ItemState.run_cons]
    simp [hstep, ItemState.run_nil, flipN]
  | succ k ih =>
    intro base s b hv
    have hstep : s.step (ItemEvent.mouseDownCheckbox true (base + 1)) =
        ({ s with
            value := JValue.bool (!b)
            value_changed := true
            last_idle_timer := base + 1 }, []) := by
      simp [ItemState.step, hv]
    have hrest := ih (base + 1)
      ({ s with
          value := JValue.bool (!b)
          value_changed := true
          last_idle_timer := base + 1 }) (!b) rfl
    rw [show base + 1 + (k + 1) = base + (k + 1 + 1) from by omega] at hrest
    rw [show editEvents base (k + 1 + 1) =
        ItemEvent.mouseDownCheckbox true (base + 1) ::
          editEvents (base + 1) (k + 1) from rfl,
      ItemState.run_cons]
    simp only [hstep, hrest]
    simp [flipN]

theorem ItemState.run_fireEvents (m : Nat) :
    ∀ (base : Nat) (s : ItemState),
      s.last_idle_timer = base + (m + 1) → s.value_changed = true →
      s.run (fireEvents base (m + 1)) =
        ({ s with value_changed := false },
          [UICmd.updateSettingsFile s.kind s.name s.value]) := by
  induction m with
  | zero =>
    intro base s hlast hdirty
    rw [show fireEvents base 1 = [ItemEvent.timer (base + 1)] from rfl,
      ItemState.run_cons]
    have hstep : s.step (ItemEvent.timer (base + 1)) =
        ({ s with value_changed := false },
          [UICmd.updateSettingsFile s.kind s.name s.value]) := by
      simp only [ItemState.step]
      rw [if_pos ⟨hdirty, by omega⟩]
    simp [hstep, ItemState.run_nil]
  | succ k ih =>
    intro base s hlast hdirty
    have hne : ¬ (s.value_changed = true ∧ base + 1 = s.last_idle_timer) := by
      intro hc
      omega
    have hstep : s.step (ItemEvent.timer (base + 1)) = (s, []) := by
      simp only [ItemState.step]
      rw [if_neg hne]
    have hrest := ih (base + 1) s (by omega) hdirty
    rw [show fireEvents base (k + 1 + 1) =
        ItemEvent.timer (base + 1) :: fireEvents (base + 1) (k + 1) from rfl,
      ItemState.run_cons]
    simp only [hstep, hrest]
    simp

/-- C1: for every nonempty sequence of `n` value edits on a boolean field row
within one debounce window (each re-arming the timer with a fresh token), the
firings of all armed timers produce exactly one `UpdateSettingsFile` command,
carrying the row's category, field name and the value held at the moment the
currently armed timer fires — the value after all `n` toggles, no
intermediate value — while the `n - 1` stale firings produce nothing. -/
theorem item_debounce_single_commit (s : ItemState) (b : Bool)
    (hv : s.value = JValue.bool b) (base n : Nat) (hn : 0 < n) :
    (s.run (editEvents base n ++ fireEvents base n)).2 =
      [UICmd.updateSettingsFile s.kind s.name (JValue.bool (flipN b n))] ∧
    (s.run (editEvents base n ++ fireEvents base n)).2.length = 1 ∧
    (s.run (editEvents base n)).1.value = JValue.bool (flipN b n) := by
  obtain ⟨m, rfl⟩ : ∃ m, n = m + 1 := ⟨n - 1, by omega⟩
  have hedit := ItemState.run_editEvents m base s b hv
  have hfire := ItemState.run_fireEvents m base
    ({ s with
        value := JValue.bool (flipN b (m + 1))
        value_changed := true
        last_idle_timer := base + (m + 1) }) rfl rfl
  rw [ItemState.run_append, hedit]
  refine ⟨?_, ?_, by simp⟩ <;> simp only [hfire] <;> simp

/-- Witness for `item_debounce_single_commit`: a single toggle of the boolean
field `editor.show-whitespace` from `false`, then the timer fires, emitting
one command carrying the value `true`. -/
theorem item_debounce_single_commit_witness :
    ((ItemState.mk "editor" "show-whitespace" (JValue.bool false) false 0).run
        (editEvents 0 1 ++ fireEvents 0 1)).2 =
      [UICmd.updateSettingsFile "editor" "show-whitespace"
        (JValue.bool (flipN false 1))] :=
  (item_debounce_single_commit
    (ItemState.mk "editor" "show-whitespace" (JValue.bool false) false 0)
    false rfl 0 1 (by decide)).1

/-- C3: a timer event whose token differs from the armed token, or which
arrives while the dirty flag is clear, submits no command and leaves the row
state unchanged; the row submits `UpdateSettingsFile` and clears the dirty
flag exactly when the fired token equals the armed token and the flag is
set. -/
theorem item_timer_token_guard (s : ItemState) (tok : Nat) :
    (¬ (s.value_changed = true ∧ tok = s.last_idle_timer) →
      s.step (ItemEvent.timer tok) = (s, [])) ∧
    (s.value_changed = true ∧ tok = s.last_idle_timer →
      s.step (ItemEvent.timer tok) =
        ({ s with value_changed := false },
          [UICmd.updateSettingsFile s.kind s.name s.value])) ∧
    ((s.step (ItemEvent.timer tok)).2 ≠ [] ↔
      s.value_changed = true ∧ tok = s.last_idle_timer) := by
  refine ⟨?_, ?_, ?_⟩
  · intro hne
    simp only [ItemState.step]
    rw [if_neg hne]
  · intro hc
    simp only [ItemState.step]
    rw [if_pos hc]
  · constructor
    · intro hne
      by_contra hc
      simp only [ItemState.step] at hne
      rw [if_neg hc] at hne
      exact hne rfl
    · intro hc
      simp only [ItemState.step]
      rw [if_pos hc]
      simp

/-- Witness for `item_timer_token_guard`: a stale token (3 against armed 7)
is ignored, and the matching token 7 on a dirty row emits the command. -/
theorem item_timer_token_guard_witness :
    (ItemState.mk "ui" "font-size" (JValue.num 13) true 7).step
        (ItemEvent.timer 3) =
      (ItemState.mk "ui" "font-size" (JValue.num 13) true 7, []) ∧
    (ItemState.mk "ui" "font-size" (JValue.num 13) true 7).step
        (ItemEvent.timer 7) =
      (ItemState.mk "ui" "font-size" (JValue.num 13) false 7,
        [UICmd.updateSettingsFile "ui" "font-size" (JValue.num 13)]) :=
  ⟨(item_timer_token_guard
      (ItemState.mk "ui" "font-size" (JValue.num 13) true 7) 3).1
      (by simp),
    (item_timer_token_guard
      (ItemState.mk "ui" "font-size" (JValue.num 13) true 7) 7).2.1
      ⟨rfl, rfl⟩⟩

/-- Counterexample to C4 as stated: in `panelCx` (switcher 150×400, line
height 40, 6 pages) a press at y = 250 computes index `⌊250/40⌋ = 6`, which
is out of range; the code leaves `active` at 0 instead of switching to the
clamped index 5, so the switcher click does not clamp. -/
theorem panel_switcher_no_clamp_cx :
    panelCx.switcher_rect.containsPt (PointQ.mk 10 250) = true ∧
    f64FloorAsUsize (((250 : ℚ) - panelCx.switcher_rect.y0) /
      panelCx.switcher_line_height) = 6 ∧
    (panelCx.mouse_down (PointQ.mk 10 250)).1.active = 0 ∧
    ¬ (panelCx.mouse_down (PointQ.mk 10 250)).1.active =
        min 6 (panelCx.children - 1) := by
  with_unfolding_all decide

/-- C4 (amended): on pointer-down inside the switcher rectangle the panel
computes the clicked index as `floor((y - switcher_top) / row_height)`; if it
is below the page count it switches the active page to it and requests a
re-layout, otherwise `active` is unchanged and no re-layout is requested; in
both cases the event is consumed and input focus is requested for the panel
(updating the owning editor tab's active-child bookkeeping). -/
theorem panel_switcher_click (s : PanelState) (pos : PointQ)
    (hin : s.switcher_rect.containsPt pos = true) :
    (f64FloorAsUsize ((pos.y - s.switcher_rect.y0) / s.switcher_line_height)
        < s.children →
      s.mouse_down pos =
        ({ s with active := f64FloorAsUsize ((pos.y - s.switcher_rect.y0) /
            s.switcher_line_height) },
          MouseDownEffects.mk true true true)) ∧
    (¬ f64FloorAsUsize ((pos.y - s.switcher_rect.y0) / s.switcher_line_height)
        < s.children →
      s.mouse_down pos = (s, MouseDownEffects.mk true false true)) := by
  constructor <;> intro hidx <;> simp [PanelState.mouse_down, hin, hidx]

/-- Witness for `panel_switcher_click`: in `panelCx` a press at y = 90 is in
the switcher, computes index 2 and switches to page 2 with all three effects
set. -/
theorem panel_switcher_click_witness :
    panelCx.mouse_down (PointQ.mk 10 90) =
      ({ panelCx with active := 2 }, MouseDownEffects.mk true true true) := by
  have h := (panel_switcher_click panelCx (PointQ.mk 10 90)
    (by with_unfolding_all decide)).1 (by with_unfolding_all decide)
  exact h.trans (by with_unfolding_all decide)

/-- C5: for every panel event, a state with 6 children and an in-range active
index keeps `active < 6`; `ShowSettings` and `ShowKeybindings` write only the
in-range indices 0 and 5; a switcher press whose computed index is out of
range never changes `active`; the freshly constructed panel starts in
range. -/
theorem panel_active_index_invariant (s : PanelState) (e : PanelEvent)
    (h6 : s.children = 6) (h : s.active < s.children) :
    (s.event e).children = s.children ∧
    (s.event e).active < s.children ∧
    panelNew.active < panelNew.children ∧
    ((s.event PanelEvent.uiShowSettings).active = 0 ∧
      (s.event PanelEvent.uiShowKeybindings).active = 5) ∧
    (∀ pos : PointQ,
      ¬ f64FloorAsUsize ((pos.y - s.switcher_rect.y0) /
          s.switcher_line_height) < s.children →
      (s.event (PanelEvent.mouseDown pos)).active = s.active) := by
  have hmd : ∀ pos : PointQ,
      (s.mouse_down pos).1.children = s.children ∧
      (s.mouse_down pos).1.active < s.children ∧
      (¬ f64FloorAsUsize ((pos.y - s.switcher_rect.y0) /
          s.switcher_line_height) < s.children →
        (s.mouse_down pos).1.active = s.active) := by
    intro pos
    simp only [PanelState.mouse_down]
    split
    · split
      · rename_i hidx
        exact ⟨rfl, hidx, fun hn => absurd hidx hn⟩
      · exact ⟨rfl, h, fun _ => rfl⟩
    · exact ⟨rfl, h, fun _ => rfl⟩
  refine ⟨?_, ?_, by decide, ⟨rfl, rfl⟩, ?_⟩
  · cases e with
    | mouseDown pos => exact (hmd pos).1
    | uiFocus => rfl
    | uiShowSettings => rfl
    | uiShowKeybindings => rfl
    | uiHide => rfl
    | otherEvent => rfl
  · cases e with
    | mouseDown pos => exact (hmd pos).2.1
    | uiFocus => exact h
    | uiShowSettings => simp [PanelState.event, h6]
    | uiShowKeybindings => simp [PanelState.event, h6]
    | uiHide => exact h
    | otherEvent => exact h
  · intro pos hn
    exact (hmd pos).2.2 hn

/-- Witness for `panel_active_index_invariant`: the `ShowKeybindings` command
on `panelCx` keeps the active index in range. -/
theorem panel_active_index_invariant_witness :
    (panelCx.event PanelEvent.uiShowKeybindings).active < panelCx.children :=
  (panel_active_index_invariant panelCx PanelEvent.uiShowKeybindings rfl
    (by decide)).2.1

theorem lookup_cons {β : Type} (k pk : String) (pv : β)
    (rest : List (String × β)) :
    List.lookup k ((pk, pv) :: rest) =
      if k = pk then some pv else List.lookup k rest := by
  by_cases h : k = pk
  · subst h
    simp [List.lookup]
  · have hb : (k == pk) = false := by simp [h]
    simp [List.lookup, h, hb]

theorem lookup_removeKey_ne (k k2 : String) (m : List (String × JValue))
    (h : ¬ k = k2) :
    List.lookup k (removeKey k2 m) = List.lookup k m := by
  induction m with
  | nil => rfl
  | cons p rest ih =>
    obtain ⟨pk, pv⟩ := p
    by_cases hp : pk = k2
    · subst hp
      rw [show removeKey pk ((pk, pv) :: rest) = rest from by
          simp [removeKey]]
      rw [lookup_cons, if_neg h]
    · rw [show removeKey k2 ((pk, pv) :: rest) =
          (pk, pv) :: removeKey k2 rest from by simp [removeKey, hp]]
      rw [lookup_cons, lookup_cons, ih]

theorem lookup_removeKey_none (k k2 : String) (m : List (String × JValue))
    (h : List.lookup k m = none) :
    List.lookup k (removeKey k2 m) = none := by
  induction m with
  | nil => rfl
  | cons p rest ih =>
    obtain ⟨pk, pv⟩ := p
    rw [lookup_cons] at h
    by_cases hk : k = pk
    · rw [if_pos hk] at h
      exact absurd h (by simp)
    · rw [if_neg hk] at h
      by_cases hp : pk = k2
      · rw [show removeKey k2 ((pk, pv) :: rest) = rest from by
            simp [removeKey, hp]]
        exact h
      · rw [show removeKey k2 ((pk, pv) :: rest) =
            (pk, pv) :: removeKey k2 rest from by simp [removeKey, hp]]
        rw [lookup_cons, if_neg hk]
        exact ih h

theorem specRows_congr (kind : String) :
    ∀ (fields descs : List String) (m1 m2 : List (String × JValue)),
      (∀ f ∈ fields,
        List.lookup (normalizeField f) m1 = List.lookup (normalizeField f) m2) →
      specRows kind fields descs m1 = specRows kind fields descs m2 := by
  intro fields
  induction fields with
  | nil => intro descs m1 m2 _; rfl
  | cons f fs ih =>
    intro descs m1 m2 hl
    cases descs with
    | nil => rfl
    | cons d ds =>
      have h1 : specRows kind (f :: fs) (d :: ds) m1 =
          SettingsRow.mk kind (normalizeField f) d
            ((List.lookup (normalizeField f) m1).getD JValue.null) ::
            specRows kind fs ds m1 := rfl
      have h2 : specRows kind (f :: fs) (d :: ds) m2 =
          SettingsRow.mk kind (normalizeField f) d
            ((List.lookup (normalizeField f) m2).getD JValue.null) ::
            specRows kind fs ds m2 := rfl
      rw [h1, h2, hl f (by simp), ih ds m1 m2 (fun g hg => hl g (by simp [hg]))]

theorem buildRows_eq_specRows (kind : String) :
    ∀ (fields descs : List String) (settings : List (String × JValue)),
      (fields.map normalizeField).Nodup →
      (∀ f ∈ fields, (List.lookup (normalizeField f) settings).isSome) →
      buildRows kind (fields.zip descs) settings =
        some (specRows kind fields descs settings) := by
  intro fields
  induction fields with
  | nil => intro descs settings _ _; rfl
  | cons f fs ih =>
    intro descs settings hnd hall
    cases descs with
    | nil => rfl
    | cons d ds =>
      obtain ⟨v, hv⟩ := Option.isSome_iff_exists.mp (hall f (by simp))
      have hnd' : (normalizeField f :: fs.map normalizeField).Nodup := by
        simpa using hnd
      have hmem : normalizeField f ∉ fs.map normalizeField :=
        (List.nodup_cons.mp hnd').1
      have hnd2 : (fs.map normalizeField).Nodup := (List.nodup_cons.mp hnd').2
      have hne : ∀ g ∈ fs, ¬ normalizeField g = normalizeField f := by
        intro g hg hEq
        exact hmem (hEq ▸ List.mem_map_of_mem normalizeField hg)
      have hall2 : ∀ g ∈ fs,
          (List.lookup (normalizeField g)
            (removeKey (normalizeField f) settings)).isSome := by
        intro g hg
        rw [lookup_removeKey_ne _ _ _ (hne g hg)]
        exact hall g (by simp [hg])
      have hrec := ih ds (removeKey (normalizeField f) settings) hnd2 hall2
      have hcongr : specRows kind fs ds (removeKey (normalizeField f) settings)
          = specRows kind fs ds settings :=
        specRows_congr kind fs ds _ _
          (fun g hg => lookup_removeKey_ne _ _ _ (hne g hg))
      show buildRows kind ((f, d) :: fs.zip ds) settings = _
      simp only [buildRows, hv, hrec, hcongr]
      have hspec : specRows kind (f :: fs) (d :: ds) settings =
          SettingsRow.mk kind (normalizeField f) d
            ((List.lookup (normalizeField f) settings).getD JValue.null) ::
            specRows kind fs ds settings := rfl
      rw [hspec, hv]
      rfl

theorem buildRows_none_of_missing (kind : String) :
    ∀ (pairs : List (String × String)) (settings : List (String × JValue)),
      (∃ fd ∈ pairs, List.lookup (normalizeField fd.1) settings = none) →
      buildRows kind pairs settings = none := by
  intro pairs
  induction pairs with
  | nil =>
    intro settings h
    obtain ⟨fd, hmem, _⟩ := h
    exact absurd hmem (List.not_mem_nil fd)
  | cons fd0 rest ih =>
    intro settings h
    obtain ⟨fd, hmem, hnone⟩ := h
    rcases List.mem_cons.mp hmem with hEq | hmem2
    · subst hEq
      simp only [buildRows, hnone]
    · cases hl : List.lookup (normalizeField fd0.1) settings with
      | none => simp only [buildRows, hl]
      | some v =>
        have hrec := ih (removeKey (normalizeField fd0.1) settings)
          ⟨fd, hmem2, lookup_removeKey_none _ _ _ hnone⟩
        simp only [buildRows, hl, hrec]

/-- C6: `update_children` is deterministic and order-preserving — it rebuilds
the children from scratch (any previous children list gives the same result),
producing exactly one row per reflected `(field, description)` pair in
reflected order with underscore-to-hyphen-normalized field names looked up in
the snapshot map; the `event` wrapper rebuilds (and signals children-changed)
only when the children list is empty, so rebuilding never duplicates rows. -/
theorem settings_update_children_deterministic (kind : String)
    (old1 old2 : List SettingsRow) (fields descs : List String)
    (settings : List (String × JValue))
    (hnd : (fields.map normalizeField).Nodup)
    (hall : ∀ f ∈ fields, (List.lookup (normalizeField f) settings).isSome) :
    LapceSettings.update_children old1 kind fields descs settings =
      some (specRows kind fields descs settings) ∧
    LapceSettings.update_children old1 kind fields descs settings =
      LapceSettings.update_children old2 kind fields descs settings ∧
    (specRows kind fields descs settings).length = (fields.zip descs).length ∧
    (∀ ch : List SettingsRow, ch.isEmpty = false →
      settingsEventChildren ch kind fields descs settings = some (ch, false)) ∧
    settingsEventChildren [] kind fields descs settings =
      some (specRows kind fields descs settings, true) := by
  have hb : LapceSettings.update_children old1 kind fields descs settings =
      some (specRows kind fields descs settings) :=
    buildRows_eq_specRows kind fields descs settings hnd hall
  refine ⟨hb, rfl, by simp [specRows], ?_, ?_⟩
  · intro ch hch
    simp [settingsEventChildren, hch]
  · have hb0 : LapceSettings.update_children [] kind fields descs settings =
        some (specRows kind fields descs settings) := hb
    simp [settingsEventChildren, hb0]

/-- Witness for `settings_update_children_deterministic`: two fields with an
underscore name, values present under the hyphenated names. -/
theorem settings_update_children_deterministic_witness :
    LapceSettings.update_children [] "editor" ["font_family", "modal"]
      ["editor font", "use modal editing"]
      [("modal", JValue.bool false), ("font-family", JValue.str "Cascadia")] =
      some
        [SettingsRow.mk "editor" "font-family" "editor font"
          (JValue.str "Cascadia"),
          SettingsRow.mk "editor" "modal" "use modal editing"
            (JValue.bool false)] := by
  have h := (settings_update_children_deterministic "editor" [] []
    ["font_family", "modal"] ["editor font", "use modal editing"]
    [("modal", JValue.bool false), ("font-family", JValue.str "Cascadia")]
    (by decide) (by decide)).1
  exact h.trans (by decide)

/-- C7: a reflected field whose normalized name is absent from the serialized
configuration map makes `update_children` panic (modelled as `none`); when
every normalized reflected field name is present (the reflected names are
pairwise distinct — they are Rust struct field names, and underscore-to-
hyphen normalization keeps them distinct), the lookup never fails and no
panic occurs. -/
theorem settings_update_children_missing_field (kind : String)
    (old : List SettingsRow) (fields descs : List String)
    (settings : List (String × JValue)) :
    ((∃ fd ∈ fields.zip descs,
        List.lookup (normalizeField fd.1) settings = none) →
      LapceSettings.update_children old kind fields descs settings = none) ∧
    ((fields.map normalizeField).Nodup →
      (∀ f ∈ fields, (List.lookup (normalizeField f) settings).isSome) →
      (LapceSettings.update_children old kind fields descs settings).isSome) := by
  constructor
  · intro h
    exact buildRows_none_of_missing kind (fields.zip descs) settings h
  · intro hnd hall
    have hb := buildRows_eq_specRows kind fields descs settings hnd hall
    simp [LapceSettings.update_children, hb]

/-- Witness for `settings_update_children_missing_field`: the field
`tab_width` is missing from an empty settings map, so the rebuild panics, and
on the map that does contain `tab-width` the rebuild succeeds. -/
theorem settings_update_children_missing_field_witness :
    LapceSettings.update_children [] "editor" ["tab_width"] ["tab width"] [] =
      none ∧
    (LapceSettings.update_children [] "editor" ["tab_width"] ["tab width"]
      [("tab-width", JValue.num 8)]).isSome := by
  constructor
  · exact (settings_update_children_missing_field "editor" [] ["tab_width"]
      ["tab width"] []).1 (by decide)
  · exact (settings_update_children_missing_field "editor" [] ["tab_width"]
      ["tab width"] [("tab-width", JValue.num 8)]).2 (by decide) (by decide)

theorem lastHit_some_ne_none (pos : PointQ) :
    ∀ (l : List (String × String × RectQ)) (e0 : String × String × RectQ),
      l.foldl (fun acc entry =>
        if entry.2.2.containsPt pos then some entry else acc) (some e0) ≠
        none := by
  intro l
  induction l with
  | nil =>
    intro e0 h
    exact Option.noConfusion h
  | cons x xs ih =>
    intro e0
    simp only [List.foldl_cons]
    by_cases hx : x.2.2.containsPt pos = true
    · rw [if_pos hx]
      exact ih x
    · rw [if_neg hx]
      exact ih e0

theorem lastHit_none_iff (pos : PointQ) :
    ∀ l : List (String × String × RectQ),
      (l.foldl (fun acc entry =>
        if entry.2.2.containsPt pos then some entry else acc) none = none) ↔
      (∀ e ∈ l, e.2.2.containsPt pos = false) := by
  intro l
  induction l with
  | nil => simp
  | cons x xs ih =>
    simp only [List.foldl_cons]
    constructor
    · intro h
      by_cases hx : x.2.2.containsPt pos = true
      · rw [if_pos hx] at h
        exact absurd h (lastHit_some_ne_none pos xs x)
      · rw [if_neg hx] at h
        intro e he
        rcases List.mem_cons.mp he with rfl | he2
        · exact Bool.not_eq_true _ ▸ (by simpa using hx)
        · exact ih.mp h e he2
    · intro hall
      have hx : x.2.2.containsPt pos = false := hall x (by simp)
      rw [if_neg (by simp [hx])]
      exact ih.mpr (fun e he => hall e (by simp [he]))

theorem lastHit_mem (pos : PointQ) :
    ∀ (l : List (String × String × RectQ))
      (acc : Option (String × String × RectQ)) (e : String × String × RectQ),
      l.foldl (fun acc2 entry =>
        if entry.2.2.containsPt pos then some entry else acc2) acc = some e →
      (e ∈ l ∧ e.2.2.containsPt pos = true) ∨ acc = some e := by
  intro l
  induction l with
  | nil =>
    intro acc e h
    exact Or.inr h
  | cons x xs ih =>
    intro acc e h
    simp only [List.foldl_cons] at h
    rcases ih _ e h with hin | hacc
    · exact Or.inl ⟨List.mem_cons_of_mem _ hin.1, hin.2⟩
    · by_cases hx : x.2.2.containsPt pos = true
      · rw [if_pos hx] at hacc
        injection hacc with h2
        subst h2
        exact Or.inl ⟨List.mem_cons_self _ _, hx⟩
      · rw [if_neg hx] at hacc
        exact Or.inr hacc

theorem reloadDoc_lookup (name content : String) :
    ∀ (docs docs2 : List (String × String)),
      reloadDoc name content docs = some docs2 →
      List.lookup name docs2 = some content := by
  intro docs
  induction docs with
  | nil =>
    intro docs2 h
    exact Option.noConfusion h
  | cons p rest ih =>
    intro docs2 h
    by_cases hp : p.1 = name
    · rw [show reloadDoc name content (p :: rest) =
          some ((name, content) :: rest) from by simp [reloadDoc, hp]] at h
      injection h with h2
      subst h2
      rw [lookup_cons, if_pos rfl]
    · cases hr : reloadDoc name content rest with
      | none =>
        rw [show reloadDoc name content (p :: rest) = none from by
          simp [reloadDoc, hp, hr]] at h
        exact Option.noConfusion h
      | some r =>
        rw [show reloadDoc name content (p :: rest) = some (p :: r) from by
          simp [reloadDoc, hp, hr]] at h
        injection h with h2
        subst h2
        obtain ⟨pk, pv⟩ := p
        rw [lookup_cons, if_neg (fun hEq => hp (by simpa using hEq.symm))]
        exact ih r hr

theorem changedRectsGo_isSome (kind : ThemeKind)
    (theme defaultTheme : List (String × String)) (rects : Nat → RectQ) :
    ∀ (keys : List String) (i : Nat),
      (∀ k ∈ keys, (List.lookup k theme).isSome ∧
        (themeDefault kind defaultTheme k).isSome) →
      (changedRectsGo kind theme defaultTheme rects i keys).isSome := by
  intro keys
  induction keys with
  | nil =>
    intro i _
    simp [changedRectsGo]
  | cons key rest ih =>
    intro i hall
    obtain ⟨live, hl⟩ := Option.isSome_iff_exists.mp (hall key (by simp)).1
    obtain ⟨dflt, hd⟩ := Option.isSome_iff_exists.mp (hall key (by simp)).2
    obtain ⟨l2, hrec⟩ := Option.isSome_iff_exists.mp
      (ih (i + 1) (fun k hk => hall k (by simp [hk])))
    simp [changedRectsGo, hd, hl, hrec]

theorem changedRectsGo_mem (kind : ThemeKind)
    (theme defaultTheme : List (String × String)) (rects : Nat → RectQ) :
    ∀ (keys : List String) (i : Nat) (l : List (String × String × RectQ)),
      changedRectsGo kind theme defaultTheme rects i keys = some l →
      ∀ k : String,
        ((∃ d r, (k, d, r) ∈ l) ↔
          (k ∈ keys ∧ ∃ live dflt, List.lookup k theme = some live ∧
            themeDefault kind defaultTheme k = some dflt ∧ ¬ live = dflt)) := by
  intro keys
  induction keys with
  | nil =>
    intro i l h k
    injection h with h2
    subst h2
    simp
  | cons key rest ih =>
    intro i l h k
    cases hd : themeDefault kind defaultTheme key with
    | none =>
      have hnone : changedRectsGo kind theme defaultTheme rects i
          (key :: rest) = none := by
        cases hl2 : List.lookup key theme <;> simp [changedRectsGo, hd, hl2]
      rw [hnone] at h
      exact Option.noConfusion h
    | some dflt =>
      cases hl : List.lookup key theme with
      | none =>
        have hnone : changedRectsGo kind theme defaultTheme rects i
            (key :: rest) = none := by simp [changedRectsGo, hd, hl]
        rw [hnone] at h
        exact Option.noConfusion h
      | some live =>
        cases hrec : changedRectsGo kind theme defaultTheme rects (i + 1)
            rest with
        | none =>
          have hnone : changedRectsGo kind theme defaultTheme rects i
              (key :: rest) = none := by simp [changedRectsGo, hd, hl, hrec]
          rw [hnone] at h
          exact Option.noConfusion h
        | some l2 =>
          have hstep : changedRectsGo kind theme defaultTheme rects i
              (key :: rest) =
              some (if ¬ live = dflt then (key, dflt, rects i) :: l2
                else l2) := by
            simp [changedRectsGo, hd, hl, hrec]
          rw [hstep] at h
          injection h with h2
          subst h2
          have hiff := ih (i + 1) l2 hrec k
          by_cases hc : live = dflt
          · rw [if_neg (by simp [hc])]
            rw [hiff]
            constructor
            · rintro ⟨hmem, spec⟩
              exact ⟨List.mem_cons_of_mem _ hmem, spec⟩
            · rintro ⟨hmem, live2, dflt2, hl2, hd2, hne2⟩
              rcases List.mem_cons.mp hmem with rfl | hmem2
              · rw [hl] at hl2
                injection hl2 with e1
                rw [hd] at hd2
                injection hd2 with e2
                exact absurd (e1 ▸ e2 ▸ hc) hne2
              · exact ⟨hmem2, live2, dflt2, hl2, hd2, hne2⟩
          · rw [if_pos hc]
            constructor
            · rintro ⟨d, r, hmem⟩
              rcases List.mem_cons.mp hmem with hEq | hmem2
              · have hk : k = key := congrArg Prod.fst hEq
                subst hk
                exact ⟨by simp, live, dflt, hl, hd, hc⟩
              · obtain ⟨hmem3, spec⟩ := hiff.mp ⟨d, r, hmem2⟩
                exact ⟨List.mem_cons_of_mem _ hmem3, spec⟩
            · rintro ⟨hmem, live2, dflt2, hl2, hd2, hne2⟩
              rcases List.mem_cons.mp hmem with rfl | hmem2
              · exact ⟨dflt, rects i, List.mem_cons_self _ _⟩
              · obtain ⟨d, r, hm⟩ := hiff.mpr
                  ⟨hmem2, live2, dflt2, hl2, hd2, hne2⟩
                exact ⟨d, r, List.mem_cons_of_mem _ hm⟩

/-- C8: after a layout pass of a `ThemeSettings` section (with every listed
key present in the live theme map, and — for the Base/UI sections — in the
default map), the rebuilt `changed_rects` contains an entry for a key iff
that key's live value differs from its default value as strings; the list is
rebuilt from scratch, independently of whatever it held before the pass. -/
theorem theme_changed_rects_iff (kind : ThemeKind)
    (theme defaultTheme : List (String × String)) (rects : Nat → RectQ)
    (keys : List String) (old1 old2 : List (String × String × RectQ))
    (hall : ∀ k ∈ keys, (List.lookup k theme).isSome ∧
      (themeDefault kind defaultTheme k).isSome) :
    ThemeSettings.layoutChangedRects old1 kind theme defaultTheme rects keys =
      ThemeSettings.layoutChangedRects old2 kind theme defaultTheme rects
        keys ∧
    ∃ l, ThemeSettings.layoutChangedRects old1 kind theme defaultTheme rects
        keys = some l ∧
      ∀ k : String, ((∃ d r, (k, d, r) ∈ l) ↔
        (k ∈ keys ∧ ∃ live dflt, List.lookup k theme = some live ∧
          themeDefault kind defaultTheme k = some dflt ∧ ¬ live = dflt)) := by
  refine ⟨rfl, ?_⟩
  obtain ⟨l, hl⟩ := Option.isSome_iff_exists.mp
    (changedRectsGo_isSome kind theme defaultTheme rects keys 0 hall)
  exact ⟨l, hl,
    fun k => changedRectsGo_mem kind theme defaultTheme rects keys 0 l hl k⟩

/-- Witness for `theme_changed_rects_iff`: `editor.background` differs from
its default and gets an entry; `editor.caret` equals its default and gets
none. -/
theorem theme_changed_rects_iff_witness :
    ∃ l, ThemeSettings.layoutChangedRects [] ThemeKind.Base
        [("editor.background", "#112233"), ("editor.caret", "#FFFFFF")]
        [("editor.background", "#000000"), ("editor.caret", "#FFFFFF")]
        (fun _ => RectQ.mk 0 0 10 10)
        ["editor.background", "editor.caret"] = some l ∧
      (∃ d r, ("editor.background", d, r) ∈ l) ∧
      ¬ (∃ d r, ("editor.caret", d, r) ∈ l) := by
  obtain ⟨-, l, hl, hiff⟩ := theme_changed_rects_iff ThemeKind.Base
    [("editor.background", "#112233"), ("editor.caret", "#FFFFFF")]
    [("editor.background", "#000000"), ("editor.caret", "#FFFFFF")]
    (fun _ => RectQ.mk 0 0 10 10)
    ["editor.background", "editor.caret"] [] [] (by decide)
  refine ⟨l, hl, ?_, ?_⟩
  · exact (hiff "editor.background").mpr
      ⟨by decide, "#112233", "#000000", by decide, by decide, by decide⟩
  · intro hex
    obtain ⟨hmem, live, dflt, h1, h2, h3⟩ := (hiff "editor.caret").mp hex
    rw [show List.lookup "editor.caret"
        [("editor.background", "#112233"), ("editor.caret", "#FFFFFF")] =
        some "#FFFFFF" from by decide] at h1
    injection h1 with e1
    rw [show themeDefault ThemeKind.Base
        [("editor.background", "#000000"), ("editor.caret", "#FFFFFF")]
        "editor.caret" = some "#FFFFFF" from by decide] at h2
    injection h2 with e2
    subst e1
    subst e2
    exact h3 rfl

/-- C9: a pointer-down on a `ThemeSettings` section records the changed-rect
containing the press (none when no rectangle contains it), touching nothing
else; a pointer-up inside the recorded rectangle reloads that key's value
document with the recorded default string and submits exactly one
`ResetSettingsFile(kind, key)` command; a pointer-up outside the recorded
rectangle, or with no recorded hit, submits nothing and reloads nothing; the
recorded hit is cleared on every pointer-up. -/
theorem theme_reset_click (s : ThemeEventState) (pos pos2 : PointQ) :
    (∃ s1, s.event (ThemeEvent.mouseDown pos) = some (s1, []) ∧
      s1.kind = s.kind ∧ s1.changed_rects = s.changed_rects ∧
      s1.value_docs = s.value_docs ∧
      (∀ e, s1.mouse_down_rect = some e →
        e ∈ s.changed_rects ∧ e.2.2.containsPt pos = true) ∧
      (s1.mouse_down_rect = none ↔
        ∀ e ∈ s.changed_rects, e.2.2.containsPt pos = false)) ∧
    (∀ k d r, s.mouse_down_rect = some (k, d, r) →
      (r.containsPt pos2 = true →
        ∀ docs2, reloadDoc (s.kind.toStr ++ "." ++ k) d s.value_docs =
            some docs2 →
          s.event (ThemeEvent.mouseUp pos2) =
            some ({ s with value_docs := docs2, mouse_down_rect := none },
              [UICmd.resetSettingsFile s.kind.toStr k]) ∧
          List.lookup (s.kind.toStr ++ "." ++ k) docs2 = some d) ∧
      (r.containsPt pos2 = false →
        s.event (ThemeEvent.mouseUp pos2) =
          some ({ s with mouse_down_rect := none }, []))) ∧
    (s.mouse_down_rect = none →
      s.event (ThemeEvent.mouseUp pos2) =
        some ({ s with mouse_down_rect := none }, [])) := by
  refine ⟨?_, ?_, ?_⟩
  · refine ⟨_, rfl, rfl, rfl, rfl, ?_, ?_⟩
    · intro e he
      rcases lastHit_mem pos s.changed_rects none e he with hin | hacc
      · exact hin
      · exact Option.noConfusion hacc
    · exact lastHit_none_iff pos s.changed_rects
  · intro k d r hmdr
    constructor
    · intro hcont docs2 hreload
      refine ⟨?_, reloadDoc_lookup _ _ s.value_docs docs2 hreload⟩
      simp [ThemeEventState.event, hmdr, hcont, hreload]
    · intro hncont
      simp [ThemeEventState.event, hmdr, hncont]
  · intro hnone
    simp [ThemeEventState.event, hnone]

/-- Witness for `theme_reset_click`: the spec's end-to-end scenario 3 —
`editor.background` is `"#112233"`, default `"#000000"`, press and release
both inside its reset rectangle: the value doc reloads to the default and one
`ResetSettingsFile("theme.base", "editor.background")` command is emitted. -/
theorem theme_reset_click_witness :
    (ThemeEventState.mk ThemeKind.Base
        [("editor.background", "#000000", RectQ.mk 0 0 10 10)]
        (some ("editor.background", "#000000", RectQ.mk 0 0 10 10))
        [("theme.base.editor.background", "#112233")]).event
      (ThemeEvent.mouseUp (PointQ.mk 5 5)) =
      some (ThemeEventState.mk ThemeKind.Base
        [("editor.background", "#000000", RectQ.mk 0 0 10 10)]
        none
        [("theme.base.editor.background", "#000000")],
        [UICmd.resetSettingsFile "theme.base" "editor.background"]) := by
  have h := ((theme_reset_click (ThemeEventState.mk ThemeKind.Base
      [("editor.background", "#000000", RectQ.mk 0 0 10 10)]
      (some ("editor.background", "#000000", RectQ.mk 0 0 10 10))
      [("theme.base.editor.background", "#112233")])
      (PointQ.mk 0 0) (PointQ.mk 5 5)).2.1
      "editor.background" "#000000" (RectQ.mk 0 0 10 10) rfl).1
      (by decide) [("theme.base.editor.background", "#000000")] (by decide)
  exact h.1.trans (by decide)

/-- C10: after `ThemeSettings::update_inputs`, `keys` and `inputs` have equal
length and `keys` is sorted ascending; the layout pass rebuilds the empty
text-layout cache with exactly one layout per key, so indexing `keys[i]`,
`inputs[i]` and `text_layouts[i]` at any input index `i` stays in bounds. -/
theorem theme_update_inputs_parallel (colors : List String) :
    (ThemeSettings.update_inputs colors).keys.length =
      (ThemeSettings.update_inputs colors).inputs.length ∧
    List.Sorted (· ≤ ·) (ThemeSettings.update_inputs colors).keys ∧
    (ThemeSettings.update_inputs colors).text_layouts = none ∧
    (∃ l, (ThemeSettings.layoutTexts
        (ThemeSettings.update_inputs colors)).text_layouts = some l ∧
      l.length = (ThemeSettings.update_inputs colors).keys.length) ∧
    (∀ i : Nat,
      i < (ThemeSettings.layoutTexts
        (ThemeSettings.update_inputs colors)).inputs.length →
      i < (ThemeSettings.layoutTexts
        (ThemeSettings.update_inputs colors)).keys.length ∧
      ∃ l, (ThemeSettings.layoutTexts
        (ThemeSettings.update_inputs colors)).text_layouts = some l ∧
        i < l.length) := by
  refine ⟨by simp [ThemeSettings.update_inputs], ?_, rfl, ?_, ?_⟩
  · simpa [ThemeSettings.update_inputs] using
      List.sorted_insertionSort (· ≤ ·) colors
  · refine ⟨(List.insertionSort (· ≤ ·) colors).map (fun key => key), ?_, ?_⟩
    · simp [ThemeSettings.update_inputs, ThemeSettings.layoutTexts]
    · simp [ThemeSettings.update_inputs]
  · intro i hi
    refine ⟨?_, ?_⟩
    · simpa [ThemeSettings.update_inputs, ThemeSettings.layoutTexts] using hi
    · refine ⟨(List.insertionSort (· ≤ ·) colors).map (fun key => key),
        by simp [ThemeSettings.update_inputs, ThemeSettings.layoutTexts], ?_⟩
      simpa [ThemeSettings.update_inputs, ThemeSettings.layoutTexts] using hi
